import Mathlib

/-!
Verification development for the RCPSP-with-inventory evaluator
(`src/rcpsp_inv_problem.py`).

The instance file is modelled as a list of lines, each line a list of
whitespace-separated tokens; a token is `some v` when the text parses as the
integer `v` and `none` when it is not a valid integer.  `_load_instance`
mirrors the Python parser (`RCPSPInventoryProblem._load_instance`) over this
model, with the two Python failure modes (list index out of range, invalid
integer literal) surfaced as `ParseError` values of an `Except`.

The evaluator `evaluate_solution` mirrors
`RCPSPInventoryProblem.evaluate_solution`: Python list indexing is rendered
with `List.getD`; the well-formedness predicate `WF` states the §3 invariants
of the data model (field lengths agree with the declared counts, successor
indices in range), under which every `getD` hits a real element exactly as the
Python code does.  Python's `max` over an empty generator and the explicit
`ValueError` for a mis-sized schedule are the two `EvalError` outcomes.

Counts read from the file are converted with `Int.toNat`, matching the
behaviour of Python's `range`/list-replication on non-positive values.
-/

namespace RCPSPInv

/-- A token of the instance file: `some v` when the token text is a valid
integer literal with value `v`, `none` otherwise. -/
abbrev Token := Option Int

/-- An instance file: the list of its lines, each line already split into
whitespace-separated tokens. -/
abbrev FileLines := List (List Token)

/-- Failure modes of the loader: a missing line (Python `IndexError` on
`lines[...]`), a missing token (`IndexError` on `tokens[...]`) and a token
that is not a valid integer (`ValueError` from `int(...)`). -/
inductive ParseError where
  | missingLine : ParseError
  | missingToken : ParseError
  | badToken : ParseError
deriving DecidableEq

/-- The parsed instance data, field for field the attributes the Python
constructor stores on `self`. -/
structure InstanceModel where
  nb_tasks : Nat
  nb_resources : Nat
  nb_inventories : Nat
  capacity : List Int
  init_level : List Int
  duration : List Int
  weight : List (List Int)
  start_cons : List (List Int)
  end_prod : List (List Int)
  nb_successors : List Int
  successors : List (List Int)
  horizon : Int
deriving DecidableEq

/-- Per-task record accumulated while parsing one task line. -/
structure TaskData where
  duration : Int
  weight : List Int
  start_cons : List Int
  end_prod : List Int
  nb_succ : Int
  succ : List Int
deriving DecidableEq

/-- Fetch line `li` of the file, failing like Python's `lines[li]`. -/
def getLine (lines : FileLines) (li : Nat) : Except ParseError (List Token) :=
  match lines.get? li with
  | none => .error .missingLine
  | some toks => .ok toks

/-- Fetch token `ti` of a line and require it to be a valid integer, failing
like Python's `int(tokens[ti])`. -/
def getTok (toks : List Token) (ti : Nat) : Except ParseError Int :=
  match toks.get? ti with
  | none => .error .missingToken
  | some none => .error .badToken
  | some (some v) => .ok v

/-- Effectful map over a list, stopping at the first failure; this models a
Python list comprehension whose body may raise. -/
def mapE {β : Type} (f : Nat → Except ParseError β) : List Nat → Except ParseError (List β)
  | [] => .ok []
  | a :: as => f a >>= fun b => mapE f as >>= fun bs => .ok (b :: bs)

/-- Parse one task line: duration, the `nbR` renewable weights, the pairwise
interleaved consumption/production values for the `nbK` inventory resources,
the successor count and the 1-based successor ids (converted to 0-based by
subtracting 1) — token positions exactly as in the Python comprehensions. -/
def parseTask (nbR nbK : Nat) (toks : List Token) : Except ParseError TaskData :=
  getTok toks 0 >>= fun d =>
  mapE (fun r => getTok toks (r + 1)) (List.range nbR) >>= fun w =>
  mapE (fun r => getTok toks (2 * r + nbR + 1)) (List.range nbK) >>= fun sc =>
  mapE (fun r => getTok toks (2 * r + nbR + 2)) (List.range nbK) >>= fun ep =>
  getTok toks (2 * nbK + nbR + 1) >>= fun ns =>
  mapE (fun s => getTok toks (2 * nbK + nbR + 1 + 1 + s)) (List.range ns.toNat) >>= fun rawSucc =>
  Except.ok ⟨d, w, sc, ep, ns, rawSucc.map (fun v => v - 1)⟩

/-- The loader `_load_instance`: line 1 holds the three counts, line 2 the
renewable capacities followed by the initial inventory levels, then one line
per task; `horizon` is the sum of all durations. -/
def _load_instance (lines : FileLines) : Except ParseError InstanceModel :=
  getLine lines 0 >>= fun l0 =>
  getTok l0 0 >>= fun T =>
  getTok l0 1 >>= fun R =>
  getTok l0 2 >>= fun K =>
  getLine lines 1 >>= fun l1 =>
  mapE (fun r => getTok l1 r) (List.range R.toNat) >>= fun capacity =>
  mapE (fun r => getTok l1 (r + R.toNat)) (List.range K.toNat) >>= fun init_level =>
  mapE (fun i => getLine lines (i + 2) >>= fun li => parseTask R.toNat K.toNat li)
      (List.range T.toNat) >>= fun tasks =>
  Except.ok
    { nb_tasks := T.toNat
      nb_resources := R.toNat
      nb_inventories := K.toNat
      capacity := capacity
      init_level := init_level
      duration := tasks.map TaskData.duration
      weight := tasks.map TaskData.weight
      start_cons := tasks.map TaskData.start_cons
      end_prod := tasks.map TaskData.end_prod
      nb_successors := tasks.map TaskData.nb_succ
      successors := tasks.map TaskData.succ
      horizon := (tasks.map TaskData.duration).sum }

/-- Well-formedness of an instance: the §3 invariants of the data model.  All
per-task and per-resource lists have the declared lengths and every successor
index lies in `[0, nb_tasks)`. -/
def WF (inst : InstanceModel) : Prop :=
  inst.capacity.length = inst.nb_resources ∧
  inst.init_level.length = inst.nb_inventories ∧
  inst.duration.length = inst.nb_tasks ∧
  inst.weight.length = inst.nb_tasks ∧
  (∀ w ∈ inst.weight, w.length = inst.nb_resources) ∧
  inst.start_cons.length = inst.nb_tasks ∧
  (∀ l ∈ inst.start_cons, l.length = inst.nb_inventories) ∧
  inst.end_prod.length = inst.nb_tasks ∧
  (∀ l ∈ inst.end_prod, l.length = inst.nb_inventories) ∧
  inst.successors.length = inst.nb_tasks ∧
  (∀ l ∈ inst.successors, ∀ j ∈ l, 0 ≤ j ∧ j < (inst.nb_tasks : Int))

/-- Failure modes of the evaluator: the explicit `ValueError` raised for a
mis-sized schedule, and Python's `ValueError` from `max()` over the empty
generator when the instance has no tasks. -/
inductive EvalError where
  | shapeError : EvalError
  | emptyMax : EvalError
deriving DecidableEq

/-- Finish time of task `i`: `solution[i] + duration[i]`. -/
def finish (inst : InstanceModel) (sol : List Int) (i : Nat) : Int :=
  sol.getD i 0 + inst.duration.getD i 0

/-- Maximum of a list of integers, Python's `max` on a non-empty sequence. -/
def intMax : List Int → Int
  | [] => 0
  | x :: xs => xs.foldl max x

/-- The makespan: maximum finish time over all tasks. -/
def makespan (inst : InstanceModel) (sol : List Int) : Int :=
  intMax ((List.range inst.nb_tasks).map (finish inst sol))

/-- Precedence penalty: for each task `i` and successor `succ`, the loop adds
`finish_i - solution[succ]` when `solution[succ] < finish_i`. -/
def precPenalty (inst : InstanceModel) (sol : List Int) : Int :=
  ((List.range inst.nb_tasks).map (fun i =>
    ((inst.successors.getD i []).map (fun succ =>
      if sol.getD succ.toNat 0 < finish inst sol i
      then finish inst sol i - sol.getD succ.toNat 0 else 0)).sum)).sum

/-- Renewable resource usage at time `t`: the loop adds `weight[i][r]` for
every task `i` active at `t`, i.e. with `solution[i] <= t < finish_i`. -/
def usage (inst : InstanceModel) (sol : List Int) (t : Int) (r : Nat) : Int :=
  ((List.range inst.nb_tasks).map (fun i =>
    if sol.getD i 0 ≤ t ∧ t < sol.getD i 0 + inst.duration.getD i 0
    then (inst.weight.getD i []).getD r 0 else 0)).sum

/-- Renewable penalty: for each `t` in `range(makespan)` and each renewable
resource `r`, the loop adds `usage - capacity[r]` when the usage exceeds the
capacity. -/
def renewPenalty (inst : InstanceModel) (sol : List Int) : Int :=
  ((List.range (makespan inst sol).toNat).map (fun (k : Nat) =>
    ((List.range inst.nb_resources).map (fun r =>
      if inst.capacity.getD r 0 < usage inst sol (k : Int) r
      then usage inst sol (k : Int) r - inst.capacity.getD r 0 else 0)).sum)).sum

/-- Inventory level at time `t` for inventory resource `r`: the loop starts
from the initial level, adds `end_prod[i][r]` when `finish_i <= t` and
subtracts `start_cons[i][r]` when `solution[i] <= t`. -/
def level (inst : InstanceModel) (sol : List Int) (t : Int) (r : Nat) : Int :=
  inst.init_level.getD r 0 +
    ((List.range inst.nb_tasks).map (fun i =>
      (if finish inst sol i ≤ t then (inst.end_prod.getD i []).getD r 0 else 0) -
      (if sol.getD i 0 ≤ t then (inst.start_cons.getD i []).getD r 0 else 0))).sum

/-- Inventory penalty: for each `t` in `range(makespan)` and each inventory
resource `r`, the loop adds `abs(level)` when the level is negative. -/
def invPenalty (inst : InstanceModel) (sol : List Int) : Int :=
  ((List.range (makespan inst sol).toNat).map (fun (k : Nat) =>
    ((List.range inst.nb_inventories).map (fun r =>
      if level inst sol (k : Int) r < 0 then |level inst sol (k : Int) r| else 0)).sum)).sum

/-- The evaluator: raises the shape error when the schedule length differs
from the task count, hits Python's empty-`max` error when there are no tasks,
and otherwise returns `makespan + 1000000 * penalty` with the penalty the sum
of the three contributions accumulated by the loops. -/
def evaluate_solution (inst : InstanceModel) (sol : List Int) : Except EvalError Int :=
  if sol.length ≠ inst.nb_tasks then .error .shapeError
  else if inst.nb_tasks = 0 then .error .emptyMax
  else .ok (makespan inst sol +
    1000000 * (precPenalty inst sol + renewPenalty inst sol + invPenalty inst sol))

/-! ### Concrete instances used in the example-based parts of the claims -/

/-- One task of duration 3, no resources: the zero-penalty instance of §8. -/
def exSingle : InstanceModel :=
  { nb_tasks := 1, nb_resources := 0, nb_inventories := 0
    capacity := [], init_level := []
    duration := [3], weight := [[]], start_cons := [[]], end_prod := [[]]
    nb_successors := [0], successors := [[]], horizon := 3 }

/-- Two tasks, task 0 of duration 2 with task 1 as successor: the precedence
example of §8. -/
def exPrec : InstanceModel :=
  { nb_tasks := 2, nb_resources := 0, nb_inventories := 0
    capacity := [], init_level := []
    duration := [2, 1], weight := [[], []], start_cons := [[], []], end_prod := [[], []]
    nb_successors := [1, 0], successors := [[1], []], horizon := 3 }

/-- One renewable resource of capacity 1 and two unit-duration tasks each
using 1 unit: the resource-overflow example of §8. -/
def exOver : InstanceModel :=
  { nb_tasks := 2, nb_resources := 1, nb_inventories := 0
    capacity := [1], init_level := []
    duration := [1, 1], weight := [[1], [1]], start_cons := [[], []], end_prod := [[], []]
    nb_successors := [0, 0], successors := [[], []], horizon := 2 }

/-- One inventory resource with initial level 2 and a single task of duration
1 producing 5 units at its end: the inventory-boundary example of §8. -/
def exInv : InstanceModel :=
  { nb_tasks := 1, nb_resources := 0, nb_inventories := 1
    capacity := [], init_level := [2]
    duration := [1], weight := [[]], start_cons := [[0]], end_prod := [[5]]
    nb_successors := [0], successors := [[]], horizon := 1 }

/-- An instance with no tasks at all; loading a file whose first line is
`0 0 0` produces it. -/
def exZero : InstanceModel :=
  { nb_tasks := 0, nb_resources := 0, nb_inventories := 0
    capacity := [], init_level := []
    duration := [], weight := [], start_cons := [], end_prod := []
    nb_successors := [], successors := [], horizon := 0 }

/-- A well-formed three-line instance file: one task, one renewable resource,
one inventory resource. -/
def exFile : FileLines :=
  [[some 1, some 1, some 1],
   [some 3, some 7],
   [some 2, some 1, some 4, some 5, some 1, some 1]]

/-- The model the loader produces from `exFile`. -/
def exFileModel : InstanceModel :=
  { nb_tasks := 1, nb_resources := 1, nb_inventories := 1
    capacity := [3], init_level := [7]
    duration := [2], weight := [[1]], start_cons := [[4]], end_prod := [[5]]
    nb_successors := [1], successors := [[0]], horizon := 2 }

/-! ### Spec-side definitions

The following definitions are written from the specification's words, not
from the source; they exist to be compared with the source-derived
definitions above. -/

/-- Whether position `ti` of line `li` holds a valid integer token.  False
when the line is missing, the token is missing, or the token is not a valid
integer — the three `ParseError` conditions of §4.1/§7. -/
def tokIsInt (lines : FileLines) (li ti : Nat) : Bool :=
  ((lines.getD li []).getD ti none).isSome

/-- The integer value of the token at position `ti` of line `li` (0 when
absent; only used at positions where `tokIsInt` holds). -/
def tokVal (lines : FileLines) (li ti : Nat) : Int :=
  ((lines.getD li []).getD ti none).getD 0

/-- Spec §4.1 line 1: three integers — task count, renewable resource count,
inventory resource count. -/
def specHeaderOK (lines : FileLines) : Bool :=
  tokIsInt lines 0 0 && tokIsInt lines 0 1 && tokIsInt lines 0 2

/-- Spec §4.1 step 3, token layout of one task line: duration, the `R`
usages, the pairwise interleaved cons/prod values for the `K` inventory
resources, the successor count, and that many successor ids. -/
def specTaskLineOK (lines : FileLines) (R K li : Nat) : Bool :=
  tokIsInt lines li 0 &&
  (List.range R).all (fun r => tokIsInt lines li (r + 1)) &&
  (List.range K).all (fun r =>
    tokIsInt lines li (2 * r + R + 1) && tokIsInt lines li (2 * r + R + 2)) &&
  tokIsInt lines li (2 * K + R + 1) &&
  (List.range (tokVal lines li (2 * K + R + 1)).toNat).all (fun s =>
    tokIsInt lines li (2 * K + R + 2 + s))

/-- Spec §4.1's conditions for a loadable file: a valid header line, at least
`task_count + 2` lines, the `R` capacities and `K` initial levels on line 2,
and a valid token layout on every task line. -/
def specFileOK (lines : FileLines) : Bool :=
  specHeaderOK lines &&
  (let T := (tokVal lines 0 0).toNat
   let R := (tokVal lines 0 1).toNat
   let K := (tokVal lines 0 2).toNat
   decide (T + 2 ≤ lines.length) &&
   (List.range R).all (fun r => tokIsInt lines 1 r) &&
   (List.range K).all (fun r => tokIsInt lines 1 (r + R)) &&
   (List.range T).all (fun i => specTaskLineOK lines R K (i + 2)))

/-- Spec §4.2's renewable usage: the sum of `resource_usage[i][r]` over the
tasks `i` active at `t` under the half-open rule `start[i] <= t < finish_i`. -/
def specUsage (inst : InstanceModel) (sol : List Int) (t : Int) (r : Nat) : Int :=
  (((List.range inst.nb_tasks).filter (fun i =>
      decide (sol.getD i 0 ≤ t ∧ t < sol.getD i 0 + inst.duration.getD i 0))).map
    (fun i => (inst.weight.getD i []).getD r 0)).sum

/-- Spec §4.2's inventory level: the initial level, plus the productions of
the tasks that have finished by `t` (inclusive), minus the consumptions of the
tasks that have started by `t` (inclusive). -/
def specLevel (inst : InstanceModel) (sol : List Int) (t : Int) (r : Nat) : Int :=
  inst.init_level.getD r 0 +
    (((List.range inst.nb_tasks).filter (fun i => decide (finish inst sol i ≤ t))).map
      (fun i => (inst.end_prod.getD i []).getD r 0)).sum -
    (((List.range inst.nb_tasks).filter (fun i => decide (sol.getD i 0 ≤ t))).map
      (fun i => (inst.start_cons.getD i []).getD r 0)).sum

/-- No precedence violation: every successor starts no earlier than its
predecessor finishes. -/
def NoPrecViol (inst : InstanceModel) (sol : List Int) : Prop :=
  ∀ i, i < inst.nb_tasks → ∀ succ ∈ inst.successors.getD i [],
    finish inst sol i ≤ sol.getD succ.toNat 0

/-- No renewable over-capacity at any time unit of `[0, makespan)`. -/
def NoOverCap (inst : InstanceModel) (sol : List Int) : Prop :=
  ∀ k, k < (makespan inst sol).toNat → ∀ r, r < inst.nb_resources →
    usage inst sol (k : Int) r ≤ inst.capacity.getD r 0

/-- No negative inventory level at any time unit of `[0, makespan)`. -/
def NoNegInv (inst : InstanceModel) (sol : List Int) : Prop :=
  ∀ k, k < (makespan inst sol).toNat → ∀ r, r < inst.nb_inventories →
    0 ≤ level inst sol (k : Int) r

/-- A schedule with no precedence, renewable-resource or inventory
violations. -/
def NoViolations (inst : InstanceModel) (sol : List Int) : Prop :=
  NoPrecViol inst sol ∧ NoOverCap inst sol ∧ NoNegInv inst sol

/-- Default task record, used only as the `getD` fallback in proofs. -/
def dTask : TaskData := ⟨0, [], [], [], 0, []⟩

example : _load_instance exFile = .ok exFileModel := rfl
example : evaluate_solution exSingle [0] = .ok 3 := rfl
example : evaluate_solution exSingle [-5] = .ok (-2) := rfl
example : evaluate_solution exPrec [0, 1] = .ok 1000002 := rfl
example : evaluate_solution exPrec [0, 2] = .ok 3 := rfl
example : evaluate_solution exOver [0, 0] = .ok 1000001 := rfl
example : level exInv [0] 1 0 = 7 := rfl
example : level exInv [0] 0 0 = 2 := rfl
example : evaluate_solution exZero [] = .error .emptyMax := rfl
example : evaluate_solution exSingle [0, 0] = .error .shapeError := rfl
example : WF exSingle := by unfold WF; decide

/-! ### Plumbing lemmas for `Except` and `mapE` -/

theorem ok_bind {α β : Type} (a : α) (f : α → Except ParseError β) :
    (Except.ok a >>= f) = f a := rfl

theorem error_bind {α β : Type} (e : ParseError) (f : α → Except ParseError β) :
    ((Except.error e : Except ParseError α) >>= f) = Except.error e := rfl

theorem bind_ok_iff {α β : Type} {x : Except ParseError α} {f : α → Except ParseError β} {b : β} :
    (x >>= f) = Except.ok b ↔ ∃ a, x = Except.ok a ∧ f a = Except.ok b := by
  cases x with
  | error e => rw [error_bind]; simp
  | ok a => rw [ok_bind]; simp

theorem bind_isOk_iff {α β : Type} {x : Except ParseError α} {f : α → Except ParseError β} :
    (∃ b, (x >>= f) = Except.ok b) ↔ ∃ a, x = Except.ok a ∧ ∃ b, f a = Except.ok b := by
  constructor
  · rintro ⟨b, h⟩
    rcases bind_ok_iff.1 h with ⟨a, ha, hf⟩
    exact ⟨a, ha, b, hf⟩
  · rintro ⟨a, ha, b, hf⟩
    exact ⟨b, bind_ok_iff.2 ⟨a, ha, hf⟩⟩

theorem mapE_isOk_iff {β : Type} {f : Nat → Except ParseError β} {l : List Nat} :
    (∃ bs, mapE f l = Except.ok bs) ↔ ∀ a ∈ l, ∃ b, f a = Except.ok b := by
  induction l with
  | nil => simp [mapE]
  | cons a as ih =>
    rw [mapE, bind_isOk_iff]
    constructor
    · rintro ⟨b, hb, hrest⟩
      rw [bind_isOk_iff] at hrest
      rcases hrest with ⟨bs, hbs, -⟩
      intro x hx
      rcases List.mem_cons.1 hx with rfl | hx
      · exact ⟨b, hb⟩
      · exact ih.1 ⟨bs, hbs⟩ x hx
    · intro h
      rcases h a (List.mem_cons_self a as) with ⟨b, hb⟩
      rcases ih.2 (fun x hx => h x (List.mem_cons_of_mem a hx)) with ⟨bs, hbs⟩
      refine ⟨b, hb, ?_⟩
      rw [bind_isOk_iff]
      exact ⟨bs, hbs, b :: bs, rfl⟩

theorem mapE_ok_forall {β : Type} {f : Nat → Except ParseError β} {l : List Nat}
    {bs : List β} (h : mapE f l = Except.ok bs) :
    ∀ a ∈ l, ∃ b, f a = Except.ok b :=
  mapE_isOk_iff.1 ⟨bs, h⟩

theorem mapE_ok_length {β : Type} {f : Nat → Except ParseError β} {l : List Nat}
    {bs : List β} (h : mapE f l = Except.ok bs) : bs.length = l.length := by
  induction l generalizing bs with
  | nil =>
    rw [mapE] at h
    injection h with h'
    rw [← h']
    rfl
  | cons a as ih =>
    rw [mapE] at h
    rcases bind_ok_iff.1 h with ⟨b, _, h2⟩
    rcases bind_ok_iff.1 h2 with ⟨cs, hcs, h3⟩
    injection h3 with h4
    rw [← h4]
    simp [ih hcs]

theorem mapE_ok_getD {β : Type} {f : Nat → Except ParseError β} {l : List Nat}
    {bs : List β} (h : mapE f l = Except.ok bs) (j : Nat) (hj : j < l.length)
    (dn : Nat) (d : β) : f (l.getD j dn) = Except.ok (bs.getD j d) := by
  induction l generalizing bs j with
  | nil => exact absurd hj (by simp)
  | cons a as ih =>
    rw [mapE] at h
    rcases bind_ok_iff.1 h with ⟨b, hb, h2⟩
    rcases bind_ok_iff.1 h2 with ⟨cs, hcs, h3⟩
    injection h3 with h4
    rw [← h4]
    cases j with
    | zero => simpa using hb
    | succ j =>
      have hj' : j < as.length := by simpa using hj
      simpa using ih hcs j hj'

/-! ### Lemmas about `getLine`, `getTok`, `tokIsInt`, `tokVal` -/

theorem getLine_eq_ok_iff {lines : FileLines} {li : Nat} {toks : List Token} :
    getLine lines li = Except.ok toks ↔ lines.get? li = some toks := by
  unfold getLine
  cases h : lines.get? li <;> simp

theorem getLine_lt {lines : FileLines} {li : Nat} {toks : List Token}
    (h : getLine lines li = Except.ok toks) : li < lines.length := by
  rcases List.get?_eq_some.1 (getLine_eq_ok_iff.1 h) with ⟨hlt, -⟩
  exact hlt

theorem getLine_ok_getD {lines : FileLines} {li : Nat} (h : li < lines.length) :
    getLine lines li = Except.ok (lines.getD li []) := by
  rw [getLine_eq_ok_iff, List.getD_eq_get?]
  cases hg : lines.get? li with
  | none => exact absurd (List.get?_eq_none.1 hg) (by omega)
  | some toks => rfl

theorem getLine_ok_eq_getD {lines : FileLines} {li : Nat} {toks : List Token}
    (h : getLine lines li = Except.ok toks) : toks = lines.getD li [] := by
  have h2 := getLine_ok_getD (getLine_lt h)
  rw [h] at h2
  exact Except.ok.inj h2

theorem getTok_eq_ok_iff {toks : List Token} {ti : Nat} {v : Int} :
    getTok toks ti = Except.ok v ↔ toks.get? ti = some (some v) := by
  unfold getTok
  cases h : toks.get? ti with
  | none => simp
  | some o => cases o <;> simp

theorem getD_none_eq_some_iff (toks : List Token) (ti : Nat) (v : Int) :
    toks.getD ti none = some v ↔ toks.get? ti = some (some v) := by
  rw [List.getD_eq_get?]
  cases toks.get? ti with
  | none => simp
  | some o => simp

theorem tokIsInt_iff {lines : FileLines} {li ti : Nat} :
    tokIsInt lines li ti = true ↔ ∃ v, getTok (lines.getD li []) ti = Except.ok v := by
  unfold tokIsInt
  rw [Option.isSome_iff_exists]
  constructor
  · rintro ⟨v, hv⟩
    exact ⟨v, getTok_eq_ok_iff.2 ((getD_none_eq_some_iff _ _ _).1 hv)⟩
  · rintro ⟨v, hv⟩
    exact ⟨v, (getD_none_eq_some_iff _ _ _).2 (getTok_eq_ok_iff.1 hv)⟩

theorem tokIsInt_line_lt {lines : FileLines} {li ti : Nat}
    (h : tokIsInt lines li ti = true) : li < lines.length := by
  by_contra hn
  have hge : lines.length ≤ li := by omega
  have : lines.getD li [] = [] := by
    rw [List.getD_eq_get?, List.get?_eq_none.2 hge]
    rfl
  rcases tokIsInt_iff.1 h with ⟨v, hv⟩
  rw [this] at hv
  exact absurd (getTok_eq_ok_iff.1 hv) (by simp)

theorem tokVal_of_getTok {lines : FileLines} {li ti : Nat} {v : Int}
    (h : getTok (lines.getD li []) ti = Except.ok v) : tokVal lines li ti = v := by
  unfold tokVal
  rw [(getD_none_eq_some_iff _ _ _).2 (getTok_eq_ok_iff.1 h)]
  rfl

theorem getTok_of_tokIsInt {lines : FileLines} {li ti : Nat}
    (h : tokIsInt lines li ti = true) :
    getTok (lines.getD li []) ti = Except.ok (tokVal lines li ti) := by
  rcases tokIsInt_iff.1 h with ⟨v, hv⟩
  rw [tokVal_of_getTok hv]
  exact hv

/-! ### Lemmas about `intMax` and integer list sums -/

theorem init_le_foldl_max (xs : List Int) (a : Int) : a ≤ xs.foldl max a := by
  induction xs generalizing a with
  | nil => exact le_refl a
  | cons x xs ih => exact le_trans (le_max_left a x) (ih (max a x))

theorem mem_le_foldl_max {x : Int} (xs : List Int) (a : Int) (hx : x ∈ xs) :
    x ≤ xs.foldl max a := by
  induction xs generalizing a with
  | nil => exact absurd hx (by simp)
  | cons y ys ih =>
    rcases List.mem_cons.1 hx with rfl | hx'
    · exact le_trans (le_max_right a x) (init_le_foldl_max ys (max a x))
    · exact ih (max a y) hx'

theorem foldl_max_mem_cons (xs : List Int) (a : Int) : xs.foldl max a ∈ a :: xs := by
  induction xs generalizing a with
  | nil => simp
  | cons x xs ih =>
    have h := ih (max a x)
    rcases List.mem_cons.1 h with h' | h'
    · rcases max_choice a x with hm | hm <;> rw [List.foldl_cons, h', hm] <;> simp
    · simp [List.foldl_cons, List.mem_cons.2 (Or.inr (List.mem_cons.2 (Or.inr h')))]

theorem le_intMax {l : List Int} {x : Int} (hx : x ∈ l) : x ≤ intMax l := by
  cases l with
  | nil => exact absurd hx (by simp)
  | cons y ys =>
    rcases List.mem_cons.1 hx with rfl | hx'
    · exact init_le_foldl_max ys x
    · exact mem_le_foldl_max ys y hx'

theorem intMax_mem {l : List Int} (h : l ≠ []) : intMax l ∈ l := by
  cases l with
  | nil => exact absurd rfl h
  | cons y ys => exact foldl_max_mem_cons ys y

theorem sum_map_eq_zero_iff {α : Type} (l : List α) (f : α → Int)
    (h : ∀ a ∈ l, 0 ≤ f a) : (l.map f).sum = 0 ↔ ∀ a ∈ l, f a = 0 := by
  induction l with
  | nil => simp
  | cons a as ih =>
    have h1 : 0 ≤ f a := h a (List.mem_cons_self a as)
    have h2 : ∀ x ∈ as, 0 ≤ f x := fun x hx => h x (List.mem_cons_of_mem a hx)
    have h3 : 0 ≤ (as.map f).sum := by
      refine List.sum_nonneg ?_
      intro x hx
      rcases List.mem_map.1 hx with ⟨y, hy, rfl⟩
      exact h2 y hy
    simp only [List.map_cons, List.sum_cons]
    constructor
    · intro h0
      have hfa : f a = 0 := by omega
      have hrest : (as.map f).sum = 0 := by omega
      intro x hx
      rcases List.mem_cons.1 hx with rfl | hx'
      · exact hfa
      · exact ((ih h2).1 hrest) x hx'
    · intro h0
      have hfa : f a = 0 := h0 a (List.mem_cons_self a as)
      have hrest : (as.map f).sum = 0 :=
        (ih h2).2 (fun x hx => h0 x (List.mem_cons_of_mem a hx))
      omega

theorem sum_map_nonneg {α : Type} (l : List α) (f : α → Int)
    (h : ∀ a ∈ l, 0 ≤ f a) : 0 ≤ (l.map f).sum := by
  refine List.sum_nonneg ?_
  intro x hx
  rcases List.mem_map.1 hx with ⟨y, hy, rfl⟩
  exact h y hy

theorem sum_map_sub {α : Type} (l : List α) (f g : α → Int) :
    (l.map (fun a => f a - g a)).sum = (l.map f).sum - (l.map g).sum := by
  induction l with
  | nil => simp
  | cons a as ih => simp only [List.map_cons, List.sum_cons, ih]; ring

theorem penalty_term_nonneg (a b : Int) : 0 ≤ if a < b then b - a else 0 := by
  split <;> omega

theorem precPenalty_nonneg (inst : InstanceModel) (sol : List Int) :
    0 ≤ precPenalty inst sol := by
  unfold precPenalty
  refine sum_map_nonneg _ _ (fun i _ => sum_map_nonneg _ _ (fun succ _ => ?_))
  exact penalty_term_nonneg _ _

theorem renewPenalty_nonneg (inst : InstanceModel) (sol : List Int) :
    0 ≤ renewPenalty inst sol := by
  unfold renewPenalty
  refine sum_map_nonneg _ _ (fun k _ => sum_map_nonneg _ _ (fun r _ => ?_))
  exact penalty_term_nonneg _ _

theorem invPenalty_nonneg (inst : InstanceModel) (sol : List Int) :
    0 ≤ invPenalty inst sol := by
  unfold invPenalty
  refine sum_map_nonneg _ _ (fun k _ => sum_map_nonneg _ _ (fun r _ => ?_))
  split
  · exact abs_nonneg _
  · exact le_refl 0

theorem precPenalty_eq_zero_iff (inst : InstanceModel) (sol : List Int) :
    precPenalty inst sol = 0 ↔ NoPrecViol inst sol := by
  unfold precPenalty NoPrecViol
  rw [sum_map_eq_zero_iff _ _
    (fun i _ => sum_map_nonneg _ _ (fun succ _ => penalty_term_nonneg _ _))]
  constructor
  · intro h i hi succ hsucc
    have h2 := h i (List.mem_range.2 hi)
    rw [sum_map_eq_zero_iff _ _ (fun succ _ => penalty_term_nonneg _ _)] at h2
    have h3 := h2 succ hsucc
    by_contra hlt
    push_neg at hlt
    rw [if_pos hlt] at h3
    omega
  · intro h i hi
    rw [sum_map_eq_zero_iff _ _ (fun succ _ => penalty_term_nonneg _ _)]
    intro succ hsucc
    exact if_neg (not_lt.2 (h i (List.mem_range.1 hi) succ hsucc))

theorem renewPenalty_eq_zero_iff (inst : InstanceModel) (sol : List Int) :
    renewPenalty inst sol = 0 ↔ NoOverCap inst sol := by
  unfold renewPenalty NoOverCap
  rw [sum_map_eq_zero_iff _ _
    (fun (_k : Nat) _ => sum_map_nonneg _ _ (fun (_r : Nat) _ => penalty_term_nonneg _ _))]
  constructor
  · intro h k hk r hr
    have h2 := h k (List.mem_range.2 hk)
    rw [sum_map_eq_zero_iff _ _ (fun (_r : Nat) _ => penalty_term_nonneg _ _)] at h2
    have h3 := h2 r (List.mem_range.2 hr)
    by_contra hlt
    push_neg at hlt
    rw [if_pos hlt] at h3
    omega
  · intro h k hk
    rw [sum_map_eq_zero_iff _ _ (fun (_r : Nat) _ => penalty_term_nonneg _ _)]
    intro r hr
    exact if_neg (not_lt.2 (h k (List.mem_range.1 hk) r (List.mem_range.1 hr)))

theorem invPenalty_eq_zero_iff (inst : InstanceModel) (sol : List Int) :
    invPenalty inst sol = 0 ↔ NoNegInv inst sol := by
  unfold invPenalty NoNegInv
  have hterm : ∀ (x : Int), 0 ≤ if x < 0 then |x| else 0 := by
    intro x
    split
    · exact abs_nonneg _
    · exact le_refl 0
  rw [sum_map_eq_zero_iff _ _
    (fun (_k : Nat) _ => sum_map_nonneg _ _ (fun (_r : Nat) _ => hterm _))]
  constructor
  · intro h k hk r hr
    have h2 := h k (List.mem_range.2 hk)
    rw [sum_map_eq_zero_iff _ _ (fun (_r : Nat) _ => hterm _)] at h2
    have h3 := h2 r (List.mem_range.2 hr)
    by_contra hneg
    push_neg at hneg
    rw [if_pos hneg, abs_of_neg hneg] at h3
    omega
  · intro h k hk
    rw [sum_map_eq_zero_iff _ _ (fun (_r : Nat) _ => hterm _)]
    intro r hr
    exact if_neg (not_lt.2 (h k (List.mem_range.1 hk) r (List.mem_range.1 hr)))

theorem evaluate_ok (inst : InstanceModel) (sol : List Int)
    (hT : 1 ≤ inst.nb_tasks) (hl : sol.length = inst.nb_tasks) :
    evaluate_solution inst sol =
      Except.ok (makespan inst sol +
        1000000 * (precPenalty inst sol + renewPenalty inst sol + invPenalty inst sol)) := by
  unfold evaluate_solution
  rw [if_neg (by omega), if_neg (by omega)]

theorem sum_filter_map {α : Type} (l : List α) (p : α → Bool) (f : α → Int) :
    ((l.filter p).map f).sum = (l.map (fun a => if p a then f a else 0)).sum := by
  induction l with
  | nil => rfl
  | cons a as ih =>
    by_cases h : p a = true
    · simp [List.filter_cons, h, ih]
    · simp [List.filter_cons, h, ih]

/-! ### Destructuring a successful parse -/

theorem range_getD {n i d : Nat} (h : i < n) : (List.range n).getD i d = i := by
  rw [List.getD_eq_get?, List.get?_range h]
  rfl

theorem getD_map {α β : Type} (f : α → β) (l : List α) (d : α) (i : Nat) :
    (l.map f).getD i (f d) = f (l.getD i d) := by
  rw [List.getD_eq_get?, List.getD_eq_get?, List.get?_map]
  cases l.get? i <;> rfl

theorem load_ok_destruct {lines : FileLines} {m : InstanceModel}
    (h : _load_instance lines = Except.ok m) :
    ∃ l0 T R K l1 capacity init_level tasks,
      getLine lines 0 = Except.ok l0 ∧
      getTok l0 0 = Except.ok T ∧
      getTok l0 1 = Except.ok R ∧
      getTok l0 2 = Except.ok K ∧
      getLine lines 1 = Except.ok l1 ∧
      mapE (fun r => getTok l1 r) (List.range R.toNat) = Except.ok capacity ∧
      mapE (fun r => getTok l1 (r + R.toNat)) (List.range K.toNat) = Except.ok init_level ∧
      mapE (fun i => getLine lines (i + 2) >>= fun li => parseTask R.toNat K.toNat li)
        (List.range T.toNat) = Except.ok tasks ∧
      m = { nb_tasks := T.toNat
            nb_resources := R.toNat
            nb_inventories := K.toNat
            capacity := capacity
            init_level := init_level
            duration := tasks.map TaskData.duration
            weight := tasks.map TaskData.weight
            start_cons := tasks.map TaskData.start_cons
            end_prod := tasks.map TaskData.end_prod
            nb_successors := tasks.map TaskData.nb_succ
            successors := tasks.map TaskData.succ
            horizon := (tasks.map TaskData.duration).sum } := by
  unfold _load_instance at h
  rcases bind_ok_iff.1 h with ⟨l0, h0, h⟩
  rcases bind_ok_iff.1 h with ⟨T, hT, h⟩
  rcases bind_ok_iff.1 h with ⟨R, hR, h⟩
  rcases bind_ok_iff.1 h with ⟨K, hK, h⟩
  rcases bind_ok_iff.1 h with ⟨l1, h1, h⟩
  rcases bind_ok_iff.1 h with ⟨cap, hcap, h⟩
  rcases bind_ok_iff.1 h with ⟨init, hinit, h⟩
  rcases bind_ok_iff.1 h with ⟨tasks, htasks, h⟩
  injection h with h'
  exact ⟨l0, T, R, K, l1, cap, init, tasks, h0, hT, hR, hK, h1, hcap, hinit, htasks, h'.symm⟩

theorem parseTask_ok_destruct {nbR nbK : Nat} {toks : List Token} {td : TaskData}
    (h : parseTask nbR nbK toks = Except.ok td) :
    ∃ d w sc ep ns rawSucc,
      getTok toks 0 = Except.ok d ∧
      mapE (fun r => getTok toks (r + 1)) (List.range nbR) = Except.ok w ∧
      mapE (fun r => getTok toks (2 * r + nbR + 1)) (List.range nbK) = Except.ok sc ∧
      mapE (fun r => getTok toks (2 * r + nbR + 2)) (List.range nbK) = Except.ok ep ∧
      getTok toks (2 * nbK + nbR + 1) = Except.ok ns ∧
      mapE (fun s => getTok toks (2 * nbK + nbR + 1 + 1 + s)) (List.range ns.toNat) =
        Except.ok rawSucc ∧
      td = ⟨d, w, sc, ep, ns, rawSucc.map (fun v => v - 1)⟩ := by
  unfold parseTask at h
  rcases bind_ok_iff.1 h with ⟨d, hd, h⟩
  rcases bind_ok_iff.1 h with ⟨w, hw, h⟩
  rcases bind_ok_iff.1 h with ⟨sc, hsc, h⟩
  rcases bind_ok_iff.1 h with ⟨ep, hep, h⟩
  rcases bind_ok_iff.1 h with ⟨ns, hns, h⟩
  rcases bind_ok_iff.1 h with ⟨rawSucc, hraw, h⟩
  injection h with h'
  exact ⟨d, w, sc, ep, ns, rawSucc, hd, hw, hsc, hep, hns, hraw, h'.symm⟩

/-! ### Bridging `parseTask` success and the spec's task-line conditions -/

theorem spec_of_parseTask_ok {lines : FileLines} {R K li : Nat} {td : TaskData}
    (h : parseTask R K (lines.getD li []) = Except.ok td) :
    specTaskLineOK lines R K li = true := by
  obtain ⟨d, w, sc, ep, ns, rawSucc, hd, hw, hsc, hep, hns, hraw, -⟩ :=
    parseTask_ok_destruct h
  unfold specTaskLineOK
  simp only [Bool.and_eq_true, List.all_eq_true, List.mem_range]
  refine ⟨⟨⟨⟨?_, ?_⟩, ?_⟩, ?_⟩, ?_⟩
  · exact tokIsInt_iff.2 ⟨d, hd⟩
  · intro r hr
    have hrl : r < (List.range R).length := by simpa using hr
    have hg := mapE_ok_getD hw r hrl 0 (0 : Int)
    rw [range_getD hr] at hg
    exact tokIsInt_iff.2 ⟨_, hg⟩
  · intro r hr
    have hrl : r < (List.range K).length := by simpa using hr
    have hg1 := mapE_ok_getD hsc r hrl 0 (0 : Int)
    rw [range_getD hr] at hg1
    have hg2 := mapE_ok_getD hep r hrl 0 (0 : Int)
    rw [range_getD hr] at hg2
    exact ⟨tokIsInt_iff.2 ⟨_, hg1⟩, tokIsInt_iff.2 ⟨_, hg2⟩⟩
  · exact tokIsInt_iff.2 ⟨ns, hns⟩
  · intro s hs
    rw [tokVal_of_getTok hns] at hs
    have hsl : s < (List.range ns.toNat).length := by simpa using hs
    have hg := mapE_ok_getD hraw s hsl 0 (1 : Int)
    rw [range_getD hs] at hg
    have hidx : 2 * K + R + 1 + 1 + s = 2 * K + R + 2 + s := by omega
    rw [hidx] at hg
    exact tokIsInt_iff.2 ⟨_, hg⟩

theorem parseTask_isOk_of_spec {lines : FileLines} {R K li : Nat}
    (h : specTaskLineOK lines R K li = true) :
    ∃ td, parseTask R K (lines.getD li []) = Except.ok td := by
  unfold specTaskLineOK at h
  simp only [Bool.and_eq_true, List.all_eq_true, List.mem_range] at h
  obtain ⟨⟨⟨⟨h0, hw⟩, hck⟩, hns⟩, hsucc⟩ := h
  unfold parseTask
  simp only [bind_isOk_iff, Except.ok.injEq, exists_eq']
  refine ⟨_, getTok_of_tokIsInt h0, ?_⟩
  obtain ⟨wv, hwv⟩ := mapE_isOk_iff.2
    (fun r hr => tokIsInt_iff.1 (hw r (List.mem_range.1 hr)))
  refine ⟨wv, hwv, ?_⟩
  obtain ⟨scv, hscv⟩ := mapE_isOk_iff.2
    (fun r hr => tokIsInt_iff.1 (hck r (List.mem_range.1 hr)).1)
  refine ⟨scv, hscv, ?_⟩
  obtain ⟨epv, hepv⟩ := mapE_isOk_iff.2
    (fun r hr => tokIsInt_iff.1 (hck r (List.mem_range.1 hr)).2)
  refine ⟨epv, hepv, ?_⟩
  refine ⟨_, getTok_of_tokIsInt hns, ?_⟩
  have hsuccTok : ∀ s ∈ List.range (tokVal lines li (2 * K + R + 1)).toNat,
      ∃ b, getTok (lines.getD li []) (2 * K + R + 1 + 1 + s) = Except.ok b := by
    intro s hs
    have h2 := tokIsInt_iff.1 (hsucc s (List.mem_range.1 hs))
    have hidx : 2 * K + R + 1 + 1 + s = 2 * K + R + 2 + s := by omega
    rw [hidx]
    exact h2
  obtain ⟨sv, hsv⟩ := mapE_isOk_iff.2 hsuccTok
  exact ⟨sv, hsv, trivial⟩

/-! ### Claim C8: the loader's failure conditions -/

/-- Claim C8: loading succeeds exactly when none of the spec's `ParseError`
conditions holds — the file has at least `task_count + 2` lines, every
required line has at least the tokens its position requires, and every
required token is a valid integer.  Whenever one of those conditions is
violated the loader returns `Except.error`, so no partial or degraded
`InstanceModel` is ever produced. -/
theorem load_failure_conditions (lines : FileLines) :
    (∃ m, _load_instance lines = Except.ok m) ↔ specFileOK lines = true := by
  constructor
  · rintro ⟨m, h⟩
    obtain ⟨l0, T, R, K, l1, cap, init, tasks, h0, hT0, hR0, hK0, h1, hcap, hinit, htasks, -⟩ :=
      load_ok_destruct h
    have hl0 := getLine_ok_eq_getD h0
    subst hl0
    have hl1 := getLine_ok_eq_getD h1
    subst hl1
    have hvT := tokVal_of_getTok hT0
    have hvR := tokVal_of_getTok hR0
    have hvK := tokVal_of_getTok hK0
    unfold specFileOK specHeaderOK
    simp only [Bool.and_eq_true, List.all_eq_true, List.mem_range, decide_eq_true_eq]
    refine ⟨⟨⟨tokIsInt_iff.2 ⟨T, hT0⟩, tokIsInt_iff.2 ⟨R, hR0⟩⟩, tokIsInt_iff.2 ⟨K, hK0⟩⟩,
      ⟨⟨⟨?_, ?_⟩, ?_⟩, ?_⟩⟩
    · rw [hvT]
      by_cases hTz : T.toNat = 0
      · have := getLine_lt h1
        omega
      · have hTpos : 0 < T.toNat := Nat.pos_of_ne_zero hTz
        have hmem : T.toNat - 1 ∈ List.range T.toNat := List.mem_range.2 (by omega)
        have hstep := mapE_ok_forall htasks _ hmem
        rcases bind_isOk_iff.1 hstep with ⟨li, hline, -⟩
        have := getLine_lt hline
        omega
    · intro r hr
      rw [hvR] at hr
      rcases mapE_ok_forall hcap r (List.mem_range.2 hr) with ⟨v, hv⟩
      exact tokIsInt_iff.2 ⟨v, hv⟩
    · intro r hr
      rw [hvK] at hr
      rw [hvR]
      rcases mapE_ok_forall hinit r (List.mem_range.2 hr) with ⟨v, hv⟩
      exact tokIsInt_iff.2 ⟨v, hv⟩
    · intro i hi
      rw [hvT] at hi
      rw [hvR, hvK]
      rcases mapE_ok_forall htasks i (List.mem_range.2 hi) with ⟨td, htd⟩
      rcases bind_ok_iff.1 htd with ⟨li, hline, hpt⟩
      have hli := getLine_ok_eq_getD hline
      subst hli
      exact spec_of_parseTask_ok hpt
  · intro hs
    unfold specFileOK specHeaderOK at hs
    simp only [Bool.and_eq_true, List.all_eq_true, List.mem_range, decide_eq_true_eq] at hs
    obtain ⟨⟨⟨h00, h01⟩, h02⟩, ⟨⟨⟨hlen, hcapB⟩, hinitB⟩, htaskB⟩⟩ := hs
    have h0lt : 0 < lines.length := by omega
    have h1lt : 1 < lines.length := by omega
    unfold _load_instance
    rw [getLine_ok_getD h0lt]
    simp only [ok_bind]
    rw [getTok_of_tokIsInt h00]
    simp only [ok_bind]
    rw [getTok_of_tokIsInt h01]
    simp only [ok_bind]
    rw [getTok_of_tokIsInt h02]
    simp only [ok_bind]
    rw [getLine_ok_getD h1lt]
    simp only [ok_bind]
    obtain ⟨capv, hcapv⟩ := mapE_isOk_iff.2
      (fun r hr => tokIsInt_iff.1 (hcapB r (List.mem_range.1 hr)))
    rw [hcapv]
    simp only [ok_bind]
    obtain ⟨initv, hinitv⟩ := mapE_isOk_iff.2
      (fun r hr => tokIsInt_iff.1 (hinitB r (List.mem_range.1 hr)))
    rw [hinitv]
    simp only [ok_bind]
    have htasksOk : ∀ i ∈ List.range (tokVal lines 0 0).toNat,
        ∃ td, (getLine lines (i + 2) >>= fun li =>
          parseTask (tokVal lines 0 1).toNat (tokVal lines 0 2).toNat li) = Except.ok td := by
      intro i hi
      have hilt : i + 2 < lines.length := by
        have := List.mem_range.1 hi
        omega
      rw [getLine_ok_getD hilt]
      simp only [ok_bind]
      exact parseTask_isOk_of_spec (htaskB i (List.mem_range.1 hi))
    obtain ⟨tasksv, htasksv⟩ := mapE_isOk_iff.2 htasksOk
    rw [htasksv]
    simp only [ok_bind]
    exact ⟨_, rfl⟩

/-! ### Claim C6: token layout of the task lines -/

/-- Claim C6: a successful load reads each task line in the fixed token
order — duration at token 0, the renewable usages at tokens `1..R`, the
inventory consumption/production values interleaved pairwise (consumption of
resource `r` at token `R + 1 + 2r`, production at token `R + 2 + 2r`), the
successor count at token `R + 2K + 1`, then the successor ids, each converted
from 1-based to 0-based by subtracting 1. -/
theorem task_line_token_layout (lines : FileLines) (m : InstanceModel)
    (h : _load_instance lines = Except.ok m) :
    ∀ i, i < m.nb_tasks →
      m.duration.getD i 0 = tokVal lines (i + 2) 0 ∧
      (∀ r, r < m.nb_resources →
        (m.weight.getD i []).getD r 0 = tokVal lines (i + 2) (r + 1)) ∧
      (∀ r, r < m.nb_inventories →
        (m.start_cons.getD i []).getD r 0 =
          tokVal lines (i + 2) (2 * r + m.nb_resources + 1) ∧
        (m.end_prod.getD i []).getD r 0 =
          tokVal lines (i + 2) (2 * r + m.nb_resources + 2)) ∧
      m.nb_successors.getD i 0 =
        tokVal lines (i + 2) (2 * m.nb_inventories + m.nb_resources + 1) ∧
      (∀ s, s < (m.nb_successors.getD i 0).toNat →
        (m.successors.getD i []).getD s 0 =
          tokVal lines (i + 2) (2 * m.nb_inventories + m.nb_resources + 2 + s) - 1) := by
  obtain ⟨l0, T, R, K, l1, cap, init, tasks, h0, hT0, hR0, hK0, h1, hcap, hinit, htasks, hm⟩ :=
    load_ok_destruct h
  subst hm
  intro i hi
  have hi' : i < T.toNat := hi
  have hilen : i < (List.range T.toNat).length := by simpa using hi'
  have hstep := mapE_ok_getD htasks i hilen 0 dTask
  rw [range_getD hi'] at hstep
  rcases bind_ok_iff.1 hstep with ⟨li, hline, hpt⟩
  have hli := getLine_ok_eq_getD hline
  subst hli
  obtain ⟨d, w, sc, ep, ns, rawSucc, hd, hw, hsc, hep, hns, hraw, htd⟩ :=
    parseTask_ok_destruct hpt
  have hdur : (tasks.map TaskData.duration).getD i 0 = d := by
    have hg := getD_map TaskData.duration tasks dTask i
    rw [htd] at hg
    exact hg
  have hwi : (tasks.map TaskData.weight).getD i [] = w := by
    have hg := getD_map TaskData.weight tasks dTask i
    rw [htd] at hg
    exact hg
  have hsci : (tasks.map TaskData.start_cons).getD i [] = sc := by
    have hg := getD_map TaskData.start_cons tasks dTask i
    rw [htd] at hg
    exact hg
  have hepi : (tasks.map TaskData.end_prod).getD i [] = ep := by
    have hg := getD_map TaskData.end_prod tasks dTask i
    rw [htd] at hg
    exact hg
  have hnsi : (tasks.map TaskData.nb_succ).getD i 0 = ns := by
    have hg := getD_map TaskData.nb_succ tasks dTask i
    rw [htd] at hg
    exact hg
  have hsucci : (tasks.map TaskData.succ).getD i [] = rawSucc.map (fun v => v - 1) := by
    have hg := getD_map TaskData.succ tasks dTask i
    rw [htd] at hg
    exact hg
  refine ⟨?_, ?_, ?_, ?_, ?_⟩
  · show (tasks.map TaskData.duration).getD i 0 = tokVal lines (i + 2) 0
    rw [hdur]
    exact (tokVal_of_getTok hd).symm
  · intro r hr
    have hrr : r < R.toNat := hr
    have hrl : r < (List.range R.toNat).length := by simpa using hrr
    have hgr := mapE_ok_getD hw r hrl 0 (0 : Int)
    rw [range_getD hrr] at hgr
    have hv := tokVal_of_getTok hgr
    show ((tasks.map TaskData.weight).getD i []).getD r 0 = tokVal lines (i + 2) (r + 1)
    rw [hwi, hv]
  · intro r hr
    have hrr : r < K.toNat := hr
    have hrl : r < (List.range K.toNat).length := by simpa using hrr
    have hgsc := mapE_ok_getD hsc r hrl 0 (0 : Int)
    rw [range_getD hrr] at hgsc
    have hvsc := tokVal_of_getTok hgsc
    have hgep := mapE_ok_getD hep r hrl 0 (0 : Int)
    rw [range_getD hrr] at hgep
    have hvep := tokVal_of_getTok hgep
    constructor
    · show ((tasks.map TaskData.start_cons).getD i []).getD r 0 =
        tokVal lines (i + 2) (2 * r + R.toNat + 1)
      rw [hsci, hvsc]
    · show ((tasks.map TaskData.end_prod).getD i []).getD r 0 =
        tokVal lines (i + 2) (2 * r + R.toNat + 2)
      rw [hepi, hvep]
  · show (tasks.map TaskData.nb_succ).getD i 0 =
      tokVal lines (i + 2) (2 * K.toNat + R.toNat + 1)
    rw [hnsi]
    exact (tokVal_of_getTok hns).symm
  · intro s hs
    have hs2 : s < ((tasks.map TaskData.nb_succ).getD i 0).toNat := hs
    rw [hnsi] at hs2
    have hsl : s < (List.range ns.toNat).length := by simpa using hs2
    have hgs := mapE_ok_getD hraw s hsl 0 (1 : Int)
    rw [range_getD hs2] at hgs
    have hv := tokVal_of_getTok hgs
    have hidx : 2 * K.toNat + R.toNat + 1 + 1 + s = 2 * K.toNat + R.toNat + 2 + s := by omega
    rw [hidx] at hv
    have hmap : (rawSucc.map (fun v => v - 1)).getD s 0 = rawSucc.getD s 1 - 1 :=
      getD_map (fun v => v - 1) rawSucc 1 s
    show ((tasks.map TaskData.succ).getD i []).getD s 0 =
      tokVal lines (i + 2) (2 * K.toNat + R.toNat + 2 + s) - 1
    rw [hsucci, hmap, hv]

/-- Witness for C6 on the concrete file `exFile`: task 0's duration is the
first token of line 3. -/
theorem task_line_token_layout_witness :
    (0 : Nat) < exFileModel.nb_tasks ∧
    exFileModel.duration.getD 0 0 = tokVal exFile 2 0 :=
  ⟨by decide, (task_line_token_layout exFile exFileModel rfl 0 (by decide)).1⟩

/-! ### Claim theorems for the evaluator -/

/-- Claim C1: for every well-formed instance with `task_count >= 1` and every
schedule of exactly `task_count` start times, `evaluate_solution` returns
`makespan + 1_000_000 * total_penalty`, where the makespan is the maximum of
`start[i] + duration[i]` over the tasks and the total penalty is the additive,
uncapped sum of the precedence, renewable-resource and inventory
contributions. -/
theorem evaluate_cost_decomposition (inst : InstanceModel) (sol : List Int)
    (_hw : WF inst) (hT : 1 ≤ inst.nb_tasks) (hl : sol.length = inst.nb_tasks) :
    evaluate_solution inst sol =
      Except.ok (makespan inst sol +
        1000000 * (precPenalty inst sol + renewPenalty inst sol + invPenalty inst sol)) ∧
    (∀ i, i < inst.nb_tasks → finish inst sol i ≤ makespan inst sol) ∧
    (∃ i, i < inst.nb_tasks ∧ makespan inst sol = finish inst sol i) := by
  refine ⟨evaluate_ok inst sol hT hl, ?_, ?_⟩
  · intro i hi
    unfold makespan
    exact le_intMax (List.mem_map.2 ⟨i, List.mem_range.2 hi, rfl⟩)
  · have hne : (List.range inst.nb_tasks).map (finish inst sol) ≠ [] := by
      refine List.ne_nil_of_length_pos ?_
      simp only [List.length_map, List.length_range]
      omega
    rcases List.mem_map.1 (intMax_mem hne) with ⟨i, hmem, heq⟩
    exact ⟨i, List.mem_range.1 hmem, heq.symm⟩

/-- Witness for C1 at the one-task instance `exSingle` with schedule `[0]`. -/
theorem evaluate_cost_decomposition_witness :
    evaluate_solution exSingle [0] =
      Except.ok (makespan exSingle [0] +
        1000000 * (precPenalty exSingle [0] + renewPenalty exSingle [0] + invPenalty exSingle [0])) :=
  (evaluate_cost_decomposition exSingle [0] (by unfold WF; decide) (by decide) (by decide)).1

/-- Claim C2: `evaluate_solution` computes the inventory level at `t` as the
initial level plus end productions of tasks with `start[i] + duration[i] <= t`
minus start consumptions of tasks with `start[i] <= t` (both boundaries
inclusive), and adds `abs(level)` to the penalty exactly when the level is
negative; in `exInv` a task producing 5 units with duration 1 starting at 0 is
reflected in `level(1, r)` (7 = 2 + 5) but not in `level(0, r)` (2). -/
theorem inventory_level_semantics :
    (∀ (inst : InstanceModel) (sol : List Int) (t : Int) (r : Nat),
      level inst sol t r = specLevel inst sol t r) ∧
    (∀ (inst : InstanceModel) (sol : List Int),
      invPenalty inst sol =
        ((List.range (makespan inst sol).toNat).map (fun (k : Nat) =>
          ((List.range inst.nb_inventories).map (fun r =>
            if level inst sol (k : Int) r < 0 then |level inst sol (k : Int) r| else 0)).sum)).sum) ∧
    level exInv [0] 1 0 = 7 ∧ level exInv [0] 0 0 = 2 := by
  refine ⟨?_, fun _ _ => rfl, rfl, rfl⟩
  intro inst sol t r
  unfold level specLevel
  rw [sum_map_sub (List.range inst.nb_tasks)
    (fun i => if finish inst sol i ≤ t then (inst.end_prod.getD i []).getD r 0 else 0)
    (fun i => if sol.getD i 0 ≤ t then (inst.start_cons.getD i []).getD r 0 else 0)]
  rw [sum_filter_map, sum_filter_map]
  simp only [decide_eq_true_eq]
  ring

/-- Claim C3: `evaluate_solution` computes `usage(t, r)` as the sum of
`resource_usage[i][r]` over the tasks active at `t` under the half-open rule
`start[i] <= t < start[i] + duration[i]`, and adds `usage - capacity[r]` to
the penalty exactly when the usage exceeds the capacity; in `exOver`, two
overlapping unit tasks on a capacity-1 resource give usage 2 at `t = 0` and
exactly one overflow unit. -/
theorem renewable_usage_semantics :
    (∀ (inst : InstanceModel) (sol : List Int) (t : Int) (r : Nat),
      usage inst sol t r = specUsage inst sol t r) ∧
    (∀ (inst : InstanceModel) (sol : List Int),
      renewPenalty inst sol =
        ((List.range (makespan inst sol).toNat).map (fun (k : Nat) =>
          ((List.range inst.nb_resources).map (fun r =>
            if inst.capacity.getD r 0 < usage inst sol (k : Int) r
            then usage inst sol (k : Int) r - inst.capacity.getD r 0 else 0)).sum)).sum) ∧
    usage exOver [0, 0] 0 0 = 2 ∧
    renewPenalty exOver [0, 0] = 1 ∧
    evaluate_solution exOver [0, 0] = Except.ok 1000001 := by
  refine ⟨?_, fun _ _ => rfl, rfl, rfl, rfl⟩
  intro inst sol t r
  unfold usage specUsage
  rw [sum_filter_map]
  simp only [decide_eq_true_eq]

/-- Claim C4: for every task `i` and successor `j`, `evaluate_solution` adds
`start[i] + duration[i] - start[j]` to the penalty exactly when
`start[j] < start[i] + duration[i]` — a magnitude, not a flag; on `exPrec`
(task 0 of duration 2 with successor task 1) schedule `[0, 1]` contributes
precedence penalty exactly 1 and `[0, 2]` contributes zero. -/
theorem precedence_penalty_semantics :
    (∀ (inst : InstanceModel) (sol : List Int),
      precPenalty inst sol =
        ((List.range inst.nb_tasks).map (fun i =>
          ((inst.successors.getD i []).map (fun succ =>
            if sol.getD succ.toNat 0 < finish inst sol i
            then finish inst sol i - sol.getD succ.toNat 0 else 0)).sum)).sum) ∧
    precPenalty exPrec [0, 1] = 1 ∧
    precPenalty exPrec [0, 2] = 0 ∧
    evaluate_solution exPrec [0, 1] = Except.ok 1000002 ∧
    evaluate_solution exPrec [0, 2] = Except.ok 3 :=
  ⟨fun _ _ => rfl, rfl, rfl, rfl, rfl⟩

/-- Claim C5: a correctly sized schedule with no precedence, renewable or
inventory violations evaluates to exactly the makespan — the penalty term is
exactly zero. -/
theorem feasible_cost_eq_makespan (inst : InstanceModel) (sol : List Int)
    (_hw : WF inst) (hT : 1 ≤ inst.nb_tasks) (hl : sol.length = inst.nb_tasks)
    (hfeas : NoViolations inst sol) :
    evaluate_solution inst sol = Except.ok (makespan inst sol) := by
  rcases hfeas with ⟨h1, h2, h3⟩
  rw [evaluate_ok inst sol hT hl,
    (precPenalty_eq_zero_iff inst sol).2 h1,
    (renewPenalty_eq_zero_iff inst sol).2 h2,
    (invPenalty_eq_zero_iff inst sol).2 h3]
  norm_num

/-- Witness for C5 at the violation-free instance `exSingle`, schedule `[0]`. -/
theorem feasible_cost_eq_makespan_witness :
    evaluate_solution exSingle [0] = Except.ok (makespan exSingle [0]) :=
  feasible_cost_eq_makespan exSingle [0] (by unfold WF; decide) (by decide) (by decide)
    (by unfold NoViolations NoPrecViol NoOverCap NoNegInv; decide)

/-- Claim C9: the accumulated penalty is non-negative, so the returned cost
is at least the makespan, with equality exactly when no constraint violation
occurs. -/
theorem cost_dominates_makespan (inst : InstanceModel) (sol : List Int)
    (_hw : WF inst) (hT : 1 ≤ inst.nb_tasks) (hl : sol.length = inst.nb_tasks) :
    0 ≤ precPenalty inst sol + renewPenalty inst sol + invPenalty inst sol ∧
    ∃ c, evaluate_solution inst sol = Except.ok c ∧
      makespan inst sol ≤ c ∧ (c = makespan inst sol ↔ NoViolations inst sol) := by
  have hp := precPenalty_nonneg inst sol
  have hr := renewPenalty_nonneg inst sol
  have hv := invPenalty_nonneg inst sol
  refine ⟨by omega,
    makespan inst sol +
      1000000 * (precPenalty inst sol + renewPenalty inst sol + invPenalty inst sol),
    evaluate_ok inst sol hT hl, by omega, ?_⟩
  constructor
  · intro hc
    exact ⟨(precPenalty_eq_zero_iff inst sol).1 (by omega),
      (renewPenalty_eq_zero_iff inst sol).1 (by omega),
      (invPenalty_eq_zero_iff inst sol).1 (by omega)⟩
  · rintro ⟨h1, h2, h3⟩
    rw [(precPenalty_eq_zero_iff inst sol).2 h1,
      (renewPenalty_eq_zero_iff inst sol).2 h2,
      (invPenalty_eq_zero_iff inst sol).2 h3]
    norm_num

/-- Witness for C9 at `exSingle` with schedule `[0]`. -/
theorem cost_dominates_makespan_witness :
    0 ≤ precPenalty exSingle [0] + renewPenalty exSingle [0] + invPenalty exSingle [0] :=
  (cost_dominates_makespan exSingle [0] (by unfold WF; decide) (by decide) (by decide)).1

/-- Claim C10: `evaluate_solution` never checks that start times are
non-negative — every correctly sized schedule of arbitrary integers (on a
well-formed instance) evaluates to a value — and on `exSingle` the schedule
`[-5]` produces the negative makespan `-2`, which is also the returned cost. -/
theorem negative_start_times_allowed :
    (∀ (inst : InstanceModel) (sol : List Int), WF inst → 1 ≤ inst.nb_tasks →
      sol.length = inst.nb_tasks → ∃ c, evaluate_solution inst sol = Except.ok c) ∧
    evaluate_solution exSingle [-5] = Except.ok (-2) ∧
    makespan exSingle [-5] = -2 ∧ ((-2 : Int) < 0) := by
  refine ⟨?_, rfl, rfl, by norm_num⟩
  intro inst sol _ hT hl
  exact ⟨_, evaluate_ok inst sol hT hl⟩

/-- Witness for C10's universal part at `exSingle` with schedule `[0]`. -/
theorem negative_start_times_allowed_witness :
    ∃ c, evaluate_solution exSingle [0] = Except.ok c :=
  negative_start_times_allowed.1 exSingle [0] (by unfold WF; decide) (by decide) (by decide)

/-- Claim C7 counterexample: on the loadable zero-task instance `exZero`, the
empty schedule has exactly the right length (`0 = task_count`), yet
`evaluate_solution` still fails (Python's `max()` over an empty sequence
raises `ValueError`), so "fails if and only if the length differs" and "any
correctly sized schedule is evaluated without error" are refuted. -/
theorem shape_error_iff_refuted :
    _load_instance [[some 0, some 0, some 0], []] = Except.ok exZero ∧
    ([] : List Int).length = exZero.nb_tasks ∧
    evaluate_solution exZero [] = Except.error EvalError.emptyMax :=
  ⟨rfl, rfl, rfl⟩

/-- Claim C7 as amended: for well-formed instances with `task_count >= 1`,
`evaluate_solution` fails exactly when the schedule length differs from
`task_count`, that failure is the shape error with no cost computed, and
every correctly sized schedule evaluates without error. -/
theorem shape_error_iff_amended (inst : InstanceModel) (sol : List Int)
    (_hw : WF inst) (hT : 1 ≤ inst.nb_tasks) :
    ((∃ e, evaluate_solution inst sol = Except.error e) ↔ sol.length ≠ inst.nb_tasks) ∧
    (sol.length ≠ inst.nb_tasks →
      evaluate_solution inst sol = Except.error EvalError.shapeError) ∧
    (sol.length = inst.nb_tasks → ∃ c, evaluate_solution inst sol = Except.ok c) := by
  by_cases hlen : sol.length = inst.nb_tasks
  · refine ⟨⟨?_, fun h => absurd hlen h⟩, fun h => absurd hlen h,
      fun _ => ⟨_, evaluate_ok inst sol hT hlen⟩⟩
    rintro ⟨e, he⟩
    rw [evaluate_ok inst sol hT hlen] at he
    exact absurd he (by simp)
  · have hsh : evaluate_solution inst sol = Except.error EvalError.shapeError := by
      unfold evaluate_solution
      rw [if_pos hlen]
    exact ⟨⟨fun _ => hlen, fun _ => ⟨_, hsh⟩⟩, fun _ => hsh, fun h => absurd h hlen⟩

/-- Witness for the amended C7: a schedule of the wrong length on `exSingle`
fails with the shape error. -/
theorem shape_error_iff_amended_witness :
    evaluate_solution exSingle [0, 0] = Except.error EvalError.shapeError :=
  (shape_error_iff_amended exSingle [0, 0] (by unfold WF; decide) (by decide)).2.1 (by decide)

end RCPSPInv
